import Mathlib

/-!
Verification of the Home-system recurrence engine, notification gate,
push dispatcher and reminder scheduler.

The JavaScript source manipulates Luxon `DateTime` values that are always
normalised to `startOf('day')` in a fixed IANA zone before any arithmetic,
and only the resulting calendar date (`toISODate()`) is ever observed.
Calendar-date arithmetic (`plus {days}`, `plus {weeks}`, `plus {months}`,
`plus {years}`) on a day-start value is independent of the zone, so dates
are embedded as plain proleptic-Gregorian `(year, month, day)` triples and
every `timezone` parameter of the source is kept as an inert argument.
-/

set_option maxRecDepth 8192

namespace HomeSystem

/-- Gregorian leap-year predicate, as Luxon computes it. -/
def isLeap (y : Nat) : Bool :=
  (y % 4 == 0 && y % 100 != 0) || y % 400 == 0

/-- Length of a month (Luxon `daysInMonth`); months outside 1..12 are never
produced by the embedded code paths under the validity hypotheses used below. -/
def daysInMonth (y m : Nat) : Nat :=
  match m with
  | 1 => 31
  | 2 => if isLeap y then 29 else 28
  | 3 => 31
  | 4 => 30
  | 5 => 31
  | 6 => 30
  | 7 => 31
  | 8 => 31
  | 9 => 30
  | 10 => 31
  | 11 => 30
  | 12 => 31
  | _ => 0

/-- A calendar date, the shape `DateTime...startOf('day')...toISODate()` exposes. -/
structure Date where
  year : Nat
  month : Nat
  day : Nat
deriving Repr, DecidableEq

/-- The date is a real proleptic-Gregorian calendar date (year at least 1). -/
def Date.valid (d : Date) : Bool :=
  1 ≤ d.year && 1 ≤ d.month && d.month ≤ 12 && 1 ≤ d.day && d.day ≤ daysInMonth d.year d.month

/-- Strict calendar order, the order Luxon comparison of two day-start values
in one zone induces on the underlying dates. -/
def dateLt (a b : Date) : Bool :=
  a.year < b.year ||
    (a.year == b.year && (a.month < b.month || (a.month == b.month && a.day < b.day)))

/-- Reflexive calendar order (`candidate <= after` in the source loops). -/
def dateLe (a b : Date) : Bool :=
  a == b || dateLt a b

/-- Successor calendar day (Luxon `plus({days: 1})` on a day-start value). -/
def nextDay (d : Date) : Date :=
  if d.day < daysInMonth d.year d.month then ⟨d.year, d.month, d.day + 1⟩
  else if d.month < 12 then ⟨d.year, d.month + 1, 1⟩
  else ⟨d.year + 1, 1, 1⟩

/-- Predecessor calendar day (Luxon `minus({days: 1})`). -/
def prevDay (d : Date) : Date :=
  if 1 < d.day then ⟨d.year, d.month, d.day - 1⟩
  else if 1 < d.month then ⟨d.year, d.month - 1, daysInMonth d.year (d.month - 1)⟩
  else ⟨d.year - 1, 12, 31⟩

/-- Luxon `plus({days: n})`. -/
def addDays (n : Nat) (d : Date) : Date :=
  nextDay^[n] d

/-- Luxon `minus({days: n})`. -/
def subDays (n : Nat) (d : Date) : Date :=
  prevDay^[n] d

/-- Luxon `plus({months: n})`: month arithmetic with the day-of-month clamped
to the length of the target month. -/
def addMonths (n : Nat) (d : Date) : Date :=
  let m0 := d.month - 1 + n
  let y := d.year + m0 / 12
  let m := m0 % 12 + 1
  ⟨y, m, min d.day (daysInMonth y m)⟩

/-- Luxon `plus({years: n})`: the day-of-month is clamped (Feb 29 to Feb 28). -/
def addYears (n : Nat) (d : Date) : Date :=
  ⟨d.year + n, d.month, min d.day (daysInMonth (d.year + n) d.month)⟩

/-- Number of leap years z with 1 ≤ z ≤ y. -/
def leapCount (y : Nat) : Nat :=
  y / 4 - y / 100 + y / 400

/-- Days strictly before January 1 of year `y`, counted from 0001-01-01. -/
def daysBeforeYear (y : Nat) : Nat :=
  365 * (y - 1) + leapCount (y - 1)

/-- Cumulative day count of the months strictly before month `m`. -/
def daysBeforeMonth (leap : Bool) (m : Nat) : Nat :=
  let l : Nat := if leap then 1 else 0
  match m with
  | 1 => 0
  | 2 => 31
  | 3 => 59 + l
  | 4 => 90 + l
  | 5 => 120 + l
  | 6 => 151 + l
  | 7 => 181 + l
  | 8 => 212 + l
  | 9 => 243 + l
  | 10 => 273 + l
  | 11 => 304 + l
  | _ => 334 + l

/-- Linear day number of a date; 0001-01-01 maps to 1. -/
def toRataDie (d : Date) : Nat :=
  daysBeforeYear d.year + daysBeforeMonth (isLeap d.year) d.month + d.day

/-- ISO weekday as Luxon exposes it: 1 = Monday .. 7 = Sunday.
0001-01-01 of the proleptic Gregorian calendar is a Monday. -/
def weekday (d : Date) : Nat :=
  (toRataDie d + 6) % 7 + 1

theorem weekday_jan_first_2024 : weekday ⟨2024, 1, 1⟩ = 1 := by decide

theorem daysInMonth_ge_28 (y m : Nat) (h1 : 1 ≤ m) (h2 : m ≤ 12) :
    28 ≤ daysInMonth y m := by
  interval_cases m <;> simp [daysInMonth] <;> cases isLeap y <;> simp

theorem daysInMonth_le_31 (y m : Nat) : daysInMonth y m ≤ 31 := by
  unfold daysInMonth
  split <;> first | omega | (split <;> omega)

theorem leapCount_succ (y : Nat) :
    leapCount (y + 1) = leapCount y + (if isLeap (y + 1) then 1 else 0) := by
  unfold leapCount isLeap
  have h4 : (y + 1) / 4 = y / 4 + if 4 ∣ y + 1 then 1 else 0 := Nat.succ_div y 4
  have h100 : (y + 1) / 100 = y / 100 + if 100 ∣ y + 1 then 1 else 0 := Nat.succ_div y 100
  have h400 : (y + 1) / 400 = y / 400 + if 400 ∣ y + 1 then 1 else 0 := Nat.succ_div y 400
  have hd4 : (4 ∣ y + 1) ↔ (y + 1) % 4 = 0 := Nat.dvd_iff_mod_eq_zero
  have hd100 : (100 ∣ y + 1) ↔ (y + 1) % 100 = 0 := Nat.dvd_iff_mod_eq_zero
  have hd400 : (400 ∣ y + 1) ↔ (y + 1) % 400 = 0 := Nat.dvd_iff_mod_eq_zero
  have hm4 : y / 100 ≤ y / 4 := Nat.div_le_div_left (by norm_num) (by norm_num)
  have hm4' : (y + 1) / 100 ≤ (y + 1) / 4 := Nat.div_le_div_left (by norm_num) (by norm_num)
  simp only [h4, h100, h400]
  by_cases c4 : (y + 1) % 4 = 0 <;> by_cases c100 : (y + 1) % 100 = 0 <;>
    by_cases c400 : (y + 1) % 400 = 0 <;>
      simp [hd4, hd100, hd400, c4, c100, c400] <;> omega

theorem daysBeforeYear_succ (y : Nat) (hy : 1 ≤ y) :
    daysBeforeYear (y + 1) =
      daysBeforeYear y + 365 + (if isLeap y then 1 else 0) := by
  obtain ⟨z, rfl⟩ : ∃ z, y = z + 1 := ⟨y - 1, by omega⟩
  unfold daysBeforeYear
  simp only [Nat.add_sub_cancel]
  cases h : isLeap (z + 1) <;> simp [leapCount_succ z, h] <;> omega

theorem daysBeforeMonth_step (leap : Bool) (y m : Nat) (hleap : isLeap y = leap)
    (h1 : 1 ≤ m) (h2 : m ≤ 11) :
    daysBeforeMonth leap (m + 1) = daysBeforeMonth leap m + daysInMonth y m := by
  subst hleap
  interval_cases m <;> cases h : isLeap y <;> simp [daysBeforeMonth, daysInMonth, h]

theorem toRataDie_nextDay (d : Date) (hv : d.valid = true) :
    toRataDie (nextDay d) = toRataDie d + 1 := by
  have hv' := hv
  unfold Date.valid at hv'
  simp only [Bool.and_eq_true, decide_eq_true_eq] at hv'
  obtain ⟨⟨⟨⟨hy, hm1⟩, hm2⟩, hd1⟩, hd2⟩ := hv'
  unfold nextDay toRataDie
  by_cases c1 : d.day < daysInMonth d.year d.month
  · simp [c1]
    omega
  · simp [c1]
    by_cases c2 : d.month < 12
    · simp [c2]
      have hstep := daysBeforeMonth_step (isLeap d.year) d.year d.month rfl hm1 (by omega)
      have hdim : d.day = daysInMonth d.year d.month := by omega
      omega
    · simp [c2]
      have hm12 : d.month = 12 := by omega
      have hsy := daysBeforeYear_succ d.year hy
      have hday : d.day = 31 := by
        rw [hm12] at hd2 c1
        have hdm : daysInMonth d.year 12 = 31 := rfl
        omega
      cases hL : isLeap d.year <;>
        cases hL2 : isLeap (d.year + 1) <;>
          simp [daysBeforeMonth, hm12, hday, hsy, hL, hL2] <;> omega

theorem nextDay_valid (d : Date) (hv : d.valid = true) : (nextDay d).valid = true := by
  have hv' := hv
  unfold Date.valid at hv'
  simp only [Bool.and_eq_true, decide_eq_true_eq] at hv'
  obtain ⟨⟨⟨⟨hy, hm1⟩, hm2⟩, hd1⟩, hd2⟩ := hv'
  unfold nextDay
  by_cases c1 : d.day < daysInMonth d.year d.month
  · rw [if_pos c1]
    simp only [Date.valid, Bool.and_eq_true, decide_eq_true_eq]
    omega
  · rw [if_neg c1]
    by_cases c2 : d.month < 12
    · rw [if_pos c2]
      simp only [Date.valid, Bool.and_eq_true, decide_eq_true_eq]
      have := daysInMonth_ge_28 d.year (d.month + 1) (by omega) (by omega)
      omega
    · rw [if_neg c2]
      simp only [Date.valid, Bool.and_eq_true, decide_eq_true_eq]
      have h31 : daysInMonth (d.year + 1) 1 = 31 := rfl
      omega

theorem dateLt_trans (a b c : Date) (h1 : dateLt a b = true) (h2 : dateLt b c = true) :
    dateLt a c = true := by
  simp only [dateLt, Bool.or_eq_true, Bool.and_eq_true, decide_eq_true_eq, beq_iff_eq] at *
  omega

theorem dateLt_nextDay (d : Date) : dateLt d (nextDay d) = true := by
  obtain ⟨dy, dm, dd⟩ := d
  unfold nextDay dateLt
  split_ifs <;> simp

theorem addDays_lt (n : Nat) (hn : 1 ≤ n) (d : Date) : dateLt d (addDays n d) = true := by
  induction n with
  | zero => omega
  | succ k ih =>
    rw [addDays, Function.iterate_succ_apply']
    by_cases hk : 1 ≤ k
    · exact dateLt_trans d (addDays k d) (nextDay (addDays k d)) (ih hk)
        (dateLt_nextDay (addDays k d))
    · have hk0 : k = 0 := by omega
      subst hk0
      simpa [addDays] using dateLt_nextDay d

theorem addMonths_lt (n : Nat) (hn : 1 ≤ n) (d : Date) : dateLt d (addMonths n d) = true := by
  obtain ⟨dy, dm, dd⟩ := d
  unfold addMonths dateLt
  simp only [Bool.or_eq_true, Bool.and_eq_true, decide_eq_true_eq, beq_iff_eq]
  omega

theorem addYears_lt (n : Nat) (hn : 1 ≤ n) (d : Date) : dateLt d (addYears n d) = true := by
  obtain ⟨dy, dm, dd⟩ := d
  unfold addYears dateLt
  simp only [Bool.or_eq_true, Bool.and_eq_true, decide_eq_true_eq, beq_iff_eq]
  omega

theorem prevDay_nextDay (d : Date) (hv : d.valid = true) : prevDay (nextDay d) = d := by
  obtain ⟨dy, dm, dd⟩ := d
  unfold Date.valid at hv
  simp only [Bool.and_eq_true, decide_eq_true_eq] at hv
  obtain ⟨⟨⟨⟨hy, hm1⟩, hm2⟩, hd1⟩, hd2⟩ := hv
  unfold nextDay prevDay
  by_cases c1 : dd < daysInMonth dy dm
  · rw [if_pos c1]
    simp only
    rw [if_pos (by omega : 1 < dd + 1)]
    simp
  · rw [if_neg c1]
    by_cases c2 : dm < 12
    · rw [if_pos c2]
      simp only
      rw [if_neg (by omega : ¬ (1:Nat) < 1), if_pos (by omega : 1 < dm + 1)]
      simp only [Nat.add_sub_cancel]
      have hdd : dd = daysInMonth dy dm := by omega
      simp [hdd]
    · rw [if_neg c2]
      simp only
      rw [if_neg (by omega : ¬ (1:Nat) < 1), if_neg (by omega : ¬ (1:Nat) < 1)]
      simp only [Nat.add_sub_cancel]
      have hm12 : dm = 12 := by omega
      have h31 : daysInMonth dy 12 = 31 := rfl
      have hdd : dd = 31 := by
        rw [hm12] at c1 hd2
        omega
      simp [hm12, hdd]

theorem addDays_valid (n : Nat) (d : Date) (hv : d.valid = true) :
    (addDays n d).valid = true := by
  induction n with
  | zero => simpa [addDays]
  | succ k ih =>
    rw [addDays, Function.iterate_succ_apply']
    exact nextDay_valid (addDays k d) ih

theorem subDays_addDays (n : Nat) (d : Date) (hv : d.valid = true) :
    subDays n (addDays n d) = d := by
  induction n with
  | zero => simp [addDays, subDays]
  | succ k ih =>
    simp only [addDays, subDays] at ih ⊢
    rw [show nextDay^[k + 1] d = nextDay (nextDay^[k] d) from
      Function.iterate_succ_apply' nextDay k d]
    rw [show prevDay^[k + 1] (nextDay (nextDay^[k] d)) =
        prevDay^[k] (prevDay (nextDay (nextDay^[k] d))) from
      Function.iterate_succ_apply prevDay k _]
    rw [prevDay_nextDay (nextDay^[k] d) (by simpa [addDays] using addDays_valid k d hv)]
    exact ih

theorem addDays_in_month (n y m d0 : Nat) (h1 : 1 ≤ d0)
    (h2 : d0 + n ≤ daysInMonth y m) :
    addDays n ⟨y, m, d0⟩ = ⟨y, m, d0 + n⟩ := by
  induction n with
  | zero => simp [addDays]
  | succ k ih =>
    rw [addDays, Function.iterate_succ_apply', ← addDays, ih (by omega)]
    unfold nextDay
    simp only
    rw [if_pos (by omega : d0 + k < daysInMonth y m)]
    simp [Nat.add_assoc]

/-- The (year, month) pair of the month following month `m` of year `y`;
proof-side helper for stating the single-boundary day-addition lemma. -/
def monthSucc (y m : Nat) : Nat × Nat :=
  if m < 12 then (y, m + 1) else (y + 1, 1)

theorem addDays_overflow (n y m d0 : Nat) (h1 : 1 ≤ d0) (hd : d0 ≤ daysInMonth y m)
    (hm1 : 1 ≤ m) (hm2 : m ≤ 12)
    (hover : daysInMonth y m < d0 + n) (hbound : d0 + n ≤ daysInMonth y m + 28) :
    addDays n ⟨y, m, d0⟩ =
      ⟨(monthSucc y m).1, (monthSucc y m).2, d0 + n - daysInMonth y m⟩ := by
  have hsplit : n = (daysInMonth y m - d0) + 1 + (d0 + n - daysInMonth y m - 1) := by omega
  rw [hsplit]
  have hcomp : ∀ (a b : Nat) (x : Date), addDays (b + a) x = addDays b (addDays a x) := by
    intro a b x
    simp [addDays, Function.iterate_add_apply]
  rw [(by omega : daysInMonth y m - d0 + 1 + (d0 + n - daysInMonth y m - 1) =
        (d0 + n - daysInMonth y m - 1) + 1 + (daysInMonth y m - d0))]
  rw [hcomp, hcomp]
  rw [addDays_in_month (daysInMonth y m - d0) y m d0 h1 (by omega)]
  rw [(by omega : d0 + (daysInMonth y m - d0) = daysInMonth y m)]
  have hstep : addDays 1 ⟨y, m, daysInMonth y m⟩ =
      ⟨(monthSucc y m).1, (monthSucc y m).2, 1⟩ := by
    unfold addDays nextDay monthSucc
    simp only [Function.iterate_one]
    rw [if_neg (by omega : ¬ daysInMonth y m < daysInMonth y m)]
    by_cases c : m < 12
    · rw [if_pos c, if_pos c]
    · rw [if_neg c, if_neg c]
  rw [hstep]
  have hnext28 : 28 ≤ daysInMonth (monthSucc y m).1 (monthSucc y m).2 := by
    unfold monthSucc
    by_cases c : m < 12
    · rw [if_pos c]
      exact daysInMonth_ge_28 y (m + 1) (by omega) (by omega)
    · rw [if_neg c]
      exact daysInMonth_ge_28 (y + 1) 1 (by omega) (by omega)
  rw [addDays_in_month (d0 + n - daysInMonth y m - 1) (monthSucc y m).1 (monthSucc y m).2 1
    (by omega) (by omega)]
  simp only [Date.mk.injEq, true_and]
  omega

/-- Embedding of the `while (cursor.weekday !== weekday)` backward scan of
`nthWeekdayOfMonth` (utils.js); the loop moves one day back per step.  Fuel 7
is an exact embedding for ISO weekdays 1..7: every weekday occurs among any 7
consecutive days, so the source loop also stops within at most 6 steps. -/
def scanBackToWeekday : Nat → Nat → Date → Date
  | 0, _, cursor => cursor
  | fuel + 1, w, cursor =>
    if weekday cursor == w then cursor else scanBackToWeekday fuel w (prevDay cursor)

/-- Embedding of the forward `while (cursor.weekday !== weekday)` scan of
`nthWeekdayOfMonth` (utils.js), one day forward per step, fuel as above. -/
def scanForwardToWeekday : Nat → Nat → Date → Date
  | 0, _, cursor => cursor
  | fuel + 1, w, cursor =>
    if weekday cursor == w then cursor else scanForwardToWeekday fuel w (nextDay cursor)

/-- `nthWeekdayOfMonth(year, month, weekday, nth, timezone)` from utils.js.
For `nth = -1` it scans backward from the end of the month; otherwise it scans
forward from the 1st, adds `max(nth - 1, 0)` weeks, and steps one week back
when that leaves the month. -/
def nthWeekdayOfMonth (year month wd : Nat) (nth : Int) (timezone : String) : Date :=
  if nth == -1 then
    scanBackToWeekday 7 wd ⟨year, month, daysInMonth year month⟩
  else
    let cursor := scanForwardToWeekday 7 wd ⟨year, month, 1⟩
    let cursor := addDays (7 * (max (nth - 1) 0).toNat) cursor
    if cursor.month != month then subDays 7 cursor else cursor

/-- `clampDay(year, month, day, timezone)` from utils.js: the requested
day-of-month is clamped into `[1, daysInMonth]`. -/
def clampDay (year month : Nat) (day : Int) (timezone : String) : Date :=
  ⟨year, month, (min (max day 1) ((daysInMonth year month : Nat) : Int)).toNat⟩

/-- `advanceSimpleDueDate(fromDate, recurrence, timezone)` from utils.js.
`DateTime.fromISO(fromDate).startOf('day')` followed by `toISODate()` is the
identity on the embedded calendar date, so the unknown-recurrence fall-through
returns the input date. -/
def advanceSimpleDueDate (fromDate : Date) (recurrence : String) (timezone : String) : Date :=
  if recurrence = "daily" then addDays 1 fromDate
  else if recurrence = "weekly" then addDays 7 fromDate
  else if recurrence = "monthly" then addMonths 1 fromDate
  else if recurrence = "seasonal" then addMonths 3 fromDate
  else if recurrence = "half_year" then addMonths 6 fromDate
  else if recurrence = "yearly" then addYears 1 fromDate
  else fromDate

/-- A stored structured recurrence rule.  Numeric fields are embedded as
integers (the source feeds them through `Number(...)`, and `Number.isFinite`
holds for every embedded value); absent fields are `none`. -/
structure RecurrenceRule where
  mode : Option String
  weekday : Option Int
  weekOfMonth : Option Int
  day : Option Int
  month : Option Int
deriving Repr, DecidableEq

/-- JavaScript truthiness of an optional numeric field: `undefined`, `null`
and `0` are falsy, every other number is truthy. -/
def jsTruthyInt : Option Int → Bool
  | none => false
  | some v => v != 0

/-- `Number(x) || fallback` on an optional numeric field. -/
def jsNumberOr (v : Option Int) (fallback : Nat) : Int :=
  match v with
  | none => fallback
  | some n => if n != 0 then n else fallback

/-- `advanceRuleDueDate(fromDate, recurrence, rule, timezone)` from utils.js. -/
def advanceRuleDueDate (fromDate : Date) (recurrence : String)
    (rule : Option RecurrenceRule) (timezone : String) : Date :=
  let intervalMonths : Nat :=
    if recurrence = "monthly" then 1
    else if recurrence = "seasonal" then 3
    else if recurrence = "half_year" then 6
    else if recurrence = "yearly" then 12
    else 0
  if intervalMonths = 0 then
    advanceSimpleDueDate fromDate recurrence timezone
  else
    let target := addMonths intervalMonths fromDate
    let anchor := recurrence == "yearly" && jsTruthyInt (rule.bind RecurrenceRule.month)
    let year := if anchor then (addYears 1 fromDate).year else target.year
    let month := if anchor then ((rule.bind RecurrenceRule.month).getD 0).toNat else target.month
    if (rule.bind RecurrenceRule.mode) == some "by_weekday"
        && jsTruthyInt (rule.bind RecurrenceRule.weekday)
        && jsTruthyInt (rule.bind RecurrenceRule.weekOfMonth) then
      nthWeekdayOfMonth year month ((rule.bind RecurrenceRule.weekday).getD 0).toNat
        ((rule.bind RecurrenceRule.weekOfMonth).getD 0) timezone
    else
      clampDay year month (jsNumberOr (rule.bind RecurrenceRule.day) fromDate.day) timezone

/-- The `while (candidate <= after && safety < 24)` loop shared by
`nextDueDate` and `nextDueDateWithRule`; the fuel is `24 - safety`. -/
def skipForward (advanceOnce : Date → Date) (after : Date) : Nat → Date → Date
  | 0, next => next
  | fuel + 1, next =>
    if dateLe next after then skipForward advanceOnce after fuel (advanceOnce next) else next

/-- `nextDueDate(fromDate, recurrence, timezone, afterDate)` from utils.js. -/
def nextDueDate (fromDate : Date) (recurrence : String) (timezone : String)
    (afterDate : Option Date) : Date :=
  let next := advanceSimpleDueDate fromDate recurrence timezone
  match afterDate with
  | none => next
  | some after => skipForward (fun d => advanceSimpleDueDate d recurrence timezone) after 24 next

/-- `nextDueDateWithRule(fromDate, recurrence, rule, timezone, afterDate)`
from utils.js. -/
def nextDueDateWithRule (fromDate : Date) (recurrence : String)
    (rule : Option RecurrenceRule) (timezone : String) (afterDate : Option Date) : Date :=
  let next := advanceRuleDueDate fromDate recurrence rule timezone
  match afterDate with
  | none => next
  | some after =>
    skipForward (fun d => advanceRuleDueDate d recurrence rule timezone) after 24 next

/-- The raw `recurrence_rule` column value reaching `parseRecurrenceRule`.
`noRule` is SQL NULL; `obj` is an already-structured value (the
`typeof raw === 'object'` branch); `raw s parsed` is a TEXT payload `s`
together with the outcome of the external `JSON.parse(s)`: `parsed = none`
embeds both a throwing parse (the `catch` branch returns null) and a parse
producing a falsy value, which the caller treats identically. -/
inductive StoredRule where
  | noRule : StoredRule
  | obj : RecurrenceRule → StoredRule
  | raw : String → Option RecurrenceRule → StoredRule
deriving Repr, DecidableEq

/-- `parseRecurrenceRule(raw)` from utils.js: falsy input (NULL or the empty
string) yields null, an object is returned as-is, and a string is parsed with
`JSON.parse`, the `catch` branch returning null. -/
def parseRecurrenceRule : StoredRule → Option RecurrenceRule
  | StoredRule.noRule => none
  | StoredRule.obj r => some r
  | StoredRule.raw s parsed => if s = "" then none else parsed

/-- The due-date update of `POST /api/tasks/:id/complete` (part_001) for a
task whose recurrence is not `once`: parse the stored rule and advance with
`nextDueDateWithRule` when a rule is present, with `nextDueDate` otherwise,
passing the completion date as `afterDate`. -/
def completeTaskNextDue (dueDate : Date) (recurrence : String) (storedRule : StoredRule)
    (timezone : String) (completedAt : Date) : Date :=
  match parseRecurrenceRule storedRule with
  | some r => nextDueDateWithRule dueDate recurrence (some r) timezone (some completedAt)
  | none => nextDueDate dueDate recurrence timezone (some completedAt)

/-- A row of the `push_subscriptions` table; the opaque `subscription_json`
payload never influences control flow and is omitted.  Store lists are kept
in ascending id order, the order `ORDER BY id ASC` returns. -/
structure PushSubscription where
  id : Nat
  member_id : Nat
deriving Repr, DecidableEq

/-- Outcome of one `webpush.sendNotification` attempt for one subscription:
success, or a rejection carrying `statusCode`, `body` and `message`. -/
inductive PushOutcome where
  | ok : PushOutcome
  | err : Option Nat → Option String → Option String → PushOutcome
deriving Repr, DecidableEq

/-- JavaScript truthiness of an optional string: `undefined` and the empty
string are falsy. -/
def jsTruthyStr : Option String → Option String
  | none => none
  | some s => if s = "" then none else some s

/-- The recorded message `err?.body || err?.message || 'Push error'`. -/
def pushErrorMessage (body message : Option String) : String :=
  match jsTruthyStr body with
  | some s => s
  | none =>
    match jsTruthyStr message with
    | some s => s
    | none => "Push error"

/-- The permanent-failure test `err.statusCode === 404 || err.statusCode === 410`. -/
def isPermanentStatus (statusCode : Option Nat) : Bool :=
  statusCode == some 404 || statusCode == some 410

/-- Accumulated effect of the `for (const sub of subs)` loop of
`sendPushToMember`: counts, error details in iteration order, and the ids of
subscriptions deleted on a permanent-failure signal. -/
structure SubLoopResult where
  sent : Nat
  failed : Nat
  errors : List (Option Nat × String)
  deleted : List Nat
deriving Repr, DecidableEq

/-- The subscription loop of `sendPushToMember` (part_001): success increments
`sent`; a 404/410 rejection deletes the subscription row; any other rejection
increments `failed` and records an error detail. -/
def processSubscriptions (deliver : Nat → PushOutcome) : List PushSubscription → SubLoopResult
  | [] => ⟨0, 0, [], []⟩
  | sub :: rest =>
    let r := processSubscriptions deliver rest
    match deliver sub.id with
    | PushOutcome.ok => ⟨r.sent + 1, r.failed, r.errors, r.deleted⟩
    | PushOutcome.err sc body msg =>
      if isPermanentStatus sc then ⟨r.sent, r.failed, r.errors, sub.id :: r.deleted⟩
      else ⟨r.sent, r.failed + 1, (sc, pushErrorMessage body msg) :: r.errors, r.deleted⟩

/-- Aggregate result of `sendPushToMember`.  The unconfigured early return of
the source carries no `errors` field; reading it yields `undefined`, which
every caller treats as an empty list, embedded as `[]`. -/
structure PushResult where
  sent : Nat
  failed : Nat
  configured : Bool
  errors : List (Option Nat × String)
deriving Repr, DecidableEq

/-- `SELECT * FROM push_subscriptions WHERE member_id = ? ORDER BY id ASC`. -/
def memberSubscriptions (store : List PushSubscription) (memberId : Nat) :
    List PushSubscription :=
  store.filter (fun s => s.member_id == memberId)

/-- `sendPushToMember(memberId, payload)` from part_001, returning the
aggregate result together with the push-subscription store after the
permanent-failure deletions. -/
def sendPushToMember (configured : Bool) (deliver : Nat → PushOutcome)
    (store : List PushSubscription) (memberId : Nat) : PushResult × List PushSubscription :=
  if !configured then (⟨0, 0, false, []⟩, store)
  else
    let r := processSubscriptions deliver (memberSubscriptions store memberId)
    (⟨r.sent, r.failed, true, r.errors⟩,
      store.filter (fun s => !(r.deleted.contains s.id)))

/-- A row of the `households` table (the columns the scheduler reads). -/
structure Household where
  id : Nat
  timezone : String
deriving Repr, DecidableEq

/-- A row of the `members` table (the columns the scheduler reads). -/
structure Member where
  id : Nat
  household_id : Nat
  name : String
  last_daily_push_date : Option Date
  last_evening_push_date : Option Date
deriving Repr, DecidableEq

/-- A row of the `tasks` table (the columns the scheduler reads). -/
structure Task where
  id : Nat
  household_id : Nat
  title : String
  recurrence : String
  due_date : Date
  primary_member_id : Option Nat
  secondary_member_id : Option Nat
  active : Bool
  last_penalty_date : Option Date
deriving Repr, DecidableEq

/-- `household.timezone || 'Europe/Zurich'` (part_001). -/
def resolveTimezone (tz : String) : String :=
  if tz = "" then "Europe/Zurich" else tz

/-- The sweep task query: `active = 1 AND due_date <= today` for one
household.  SQLite compares the TEXT `due_date` lexicographically, which on
ISO dates coincides with the calendar order `dateLe`. -/
def householdTasksDue (tasks : List Task) (hid : Nat) (today : Date) : List Task :=
  tasks.filter (fun t => t.household_id == hid && t.active && dateLe t.due_date today)

/-- The morning filter: tasks whose primary or secondary assignee is the
member. -/
def morningMemberTasks (tasks : List Task) (memberId : Nat) : List Task :=
  tasks.filter (fun t =>
    t.primary_member_id == some memberId || t.secondary_member_id == some memberId)

/-- The body of the member loop of `sendDailyReminders` (part_001): skip when
the idempotency marker equals today, skip when the member has no due task,
otherwise push and set `last_daily_push_date = today`.  Returns the member
row after the loop body, the threaded subscription store, and the dispatch
attempts made (member id and date). -/
def morningMemberStep (configured : Bool) (deliver : Nat → PushOutcome) (today : Date)
    (tasks : List Task) (m : Member) (store : List PushSubscription) :
    Member × List PushSubscription × List (Nat × Date) :=
  if m.last_daily_push_date == some today then (m, store, [])
  else
    let memberTasks := morningMemberTasks tasks m.id
    if memberTasks.isEmpty then (m, store, [])
    else
      let res := sendPushToMember configured deliver store m.id
      (⟨m.id, m.household_id, m.name, some today, m.last_evening_push_date⟩,
        res.2, [(m.id, today)])

/-- The member loop of `sendDailyReminders`, threading the subscription
store through successive dispatches. -/
def morningMembers (configured : Bool) (deliver : Nat → PushOutcome) (today : Date)
    (tasks : List Task) : List Member → List PushSubscription →
    List Member × List PushSubscription × List (Nat × Date)
  | [], store => ([], store, [])
  | m :: rest, store =>
    let r1 := morningMemberStep configured deliver today tasks m store
    let r2 := morningMembers configured deliver today tasks rest r1.2.1
    (r1.1 :: r2.1, r2.2.1, r1.2.2 ++ r2.2.2)

/-- One household iteration of `sendDailyReminders`: today is computed from
the household's own timezone, the due tasks are fetched, and an empty task
list short-circuits the member loop. -/
def morningHousehold (configured : Bool) (deliver : Nat → PushOutcome)
    (todayOf : String → Date) (members : List Member) (tasks : List Task)
    (h : Household) (store : List PushSubscription) :
    List Member × List PushSubscription × List (Nat × Date) :=
  let today := todayOf (resolveTimezone h.timezone)
  let hhMembers := members.filter (fun m => m.household_id == h.id)
  let hhTasks := householdTasksDue tasks h.id today
  if hhTasks.isEmpty then (hhMembers, store, [])
  else morningMembers configured deliver today hhTasks hhMembers store

/-- `sendDailyReminders()` from part_001 — the 07:00 morning sweep — as a
pure function of the store snapshot and a now-source `todayOf` mapping an
IANA zone to its current local date.  Returns the processed member rows in
household order, the final subscription store, and all dispatch attempts. -/
def sendDailyReminders (configured : Bool) (deliver : Nat → PushOutcome)
    (todayOf : String → Date) : List Household → List Member → List Task →
    List PushSubscription → List Member × List PushSubscription × List (Nat × Date)
  | [], _, _, store => ([], store, [])
  | h :: rest, members, tasks, store =>
    let r1 := morningHousehold configured deliver todayOf members tasks h store
    let r2 := sendDailyReminders configured deliver todayOf rest members tasks r1.2.1
    (r1.1 ++ r2.1, r2.2.1, r1.2.2 ++ r2.2.2)

/-- The reminder kinds of the three daily sweeps. -/
inductive ReminderKind where
  | morning : ReminderKind
  | evening : ReminderKind
  | penalty : ReminderKind
deriving Repr, DecidableEq

/-- The notification gate.  The source inlines it as the marker comparisons
`member.last_daily_push_date === today`, `member.last_evening_push_date ===
today` and `task.last_penalty_date === today`, skipping the subject on
equality; a NULL marker never equals a date string. -/
def shouldFire (subjectId : Nat) (kind : ReminderKind) (today : Date)
    (lastFired : Option Date) : Bool :=
  !(lastFired == some today)

/-- One `cron.schedule(expr, callback, { timezone })` registration. -/
structure CronJob where
  schedule : String
  timezone : String
  kind : ReminderKind
deriving Repr, DecidableEq

/-- The three trigger registrations at the bottom of part_001: all three pass
the fixed option `timezone: 'Europe/Zurich'`. -/
def cronJobs : List CronJob :=
  [⟨"0 7 * * *", "Europe/Zurich", ReminderKind.morning⟩,
    ⟨"0 20 * * *", "Europe/Zurich", ReminderKind.evening⟩,
    ⟨"0 21 * * *", "Europe/Zurich", ReminderKind.penalty⟩]

/-- The timezone stored by `POST /api/households/join`:
`timezone || 'Europe/Zurich'` on the request value. -/
def householdTimezone (requested : Option String) : String :=
  match requested with
  | none => "Europe/Zurich"
  | some s => if s = "" then "Europe/Zurich" else s

/-- `POST /api/members/:id/push-subscription` (part_001): 404 when the member
does not exist, 400 when no subscription payload is supplied (both leave the
store untouched, embedded as `none`); otherwise every existing subscription
row of the member is deleted and the new one inserted with the next
autoincrement id `freshId`. -/
def registerPushSubscription (members : List Member) (store : List PushSubscription)
    (memberId : Nat) (subscriptionProvided : Bool) (freshId : Nat) :
    Option (List PushSubscription) :=
  if !(members.any (fun m => m.id == memberId)) then none
  else if !subscriptionProvided then none
  else some (store.filter (fun s => !(s.member_id == memberId)) ++ [⟨freshId, memberId⟩])

theorem skipForward_fixed (step : Date → Date) (after x : Date) (hstep : step x = x)
    (fuel : Nat) : skipForward step after fuel x = x := by
  induction fuel with
  | zero => rfl
  | succ n ih =>
    unfold skipForward
    by_cases h : dateLe x after = true
    · rw [if_pos h, hstep]
      exact ih
    · rw [if_neg h]

theorem skipForward_spec (step : Date → Date) (after : Date) (fuel : Nat) (start : Date) :
    ∃ k, k ≤ fuel ∧ skipForward step after fuel start = step^[k] start ∧
      (∀ i, i < k → dateLe (step^[i] start) after = true) ∧
      (k < fuel → dateLe (step^[k] start) after = false) := by
  induction fuel generalizing start with
  | zero =>
    refine ⟨0, Nat.le_refl 0, rfl, ?_, ?_⟩
    · intro i hi
      omega
    · intro h
      omega
  | succ n ih =>
    unfold skipForward
    by_cases h : dateLe start after = true
    · rw [if_pos h]
      obtain ⟨k, hk, heq, hall, hstop⟩ := ih (step start)
      refine ⟨k + 1, by omega, ?_, ?_, ?_⟩
      · rw [heq, Function.iterate_succ_apply]
      · intro i hi
        match i with
        | 0 => simpa using h
        | j + 1 =>
          rw [Function.iterate_succ_apply]
          exact hall j (by omega)
      · intro hlt
        rw [Function.iterate_succ_apply]
        exact hstop (by omega)
    · rw [if_neg h]
      refine ⟨0, by omega, rfl, ?_, ?_⟩
      · intro i hi
        omega
      · intro _
        simpa using h

/-- C1: with a supplied `notBefore` date, the rule-less advance iterates the
single-step advance on the freshly computed candidate — the result is the
k-th iterate of the step applied to the first candidate, every earlier
candidate was at most `notBefore`, the loop runs at most 24 times, and only
bound exhaustion (k = 24) may return a candidate not after `notBefore`; in
particular advancing 2024-01-01 weekly with notBefore 2024-01-20 yields
2024-01-22. -/
theorem c1_skip_forward_advance (fromDate : Date) (recurrence timezone : String)
    (after : Date) :
    (∃ k, k ≤ 24 ∧
      nextDueDate fromDate recurrence timezone (some after) =
        (fun d => advanceSimpleDueDate d recurrence timezone)^[k]
          (advanceSimpleDueDate fromDate recurrence timezone) ∧
      (∀ i, i < k →
        dateLe ((fun d => advanceSimpleDueDate d recurrence timezone)^[i]
          (advanceSimpleDueDate fromDate recurrence timezone)) after = true) ∧
      (k < 24 →
        dateLe ((fun d => advanceSimpleDueDate d recurrence timezone)^[k]
          (advanceSimpleDueDate fromDate recurrence timezone)) after = false)) ∧
    nextDueDate ⟨2024, 1, 1⟩ "weekly" "Europe/Zurich" (some ⟨2024, 1, 20⟩) =
      ⟨2024, 1, 22⟩ := by
  constructor
  · exact skipForward_spec (fun d => advanceSimpleDueDate d recurrence timezone) after 24
      (advanceSimpleDueDate fromDate recurrence timezone)
  · decide

theorem c1_skip_forward_advance_witness :
    nextDueDate ⟨2024, 1, 1⟩ "weekly" "Europe/Zurich" (some ⟨2024, 1, 20⟩) =
      ⟨2024, 1, 22⟩ :=
  (c1_skip_forward_advance ⟨2024, 1, 1⟩ "weekly" "Europe/Zurich" ⟨2024, 1, 20⟩).2

/-- C2: the notification gate fires exactly when the stored marker differs
from today (false for marker 2024-03-01 on 2024-03-01, true for marker
2024-02-29), and the morning sweep member step skips a member whose marker
equals today: the member row, the subscription store and the attempt list
are all unchanged. -/
theorem c2_notification_gate :
    (∀ (subjectId : Nat) (kind : ReminderKind) (today : Date) (lastFired : Option Date),
      shouldFire subjectId kind today lastFired = true ↔ lastFired ≠ some today) ∧
    shouldFire 1 ReminderKind.morning ⟨2024, 3, 1⟩ (some ⟨2024, 3, 1⟩) = false ∧
    shouldFire 1 ReminderKind.morning ⟨2024, 3, 1⟩ (some ⟨2024, 2, 29⟩) = true ∧
    (∀ (configured : Bool) (deliver : Nat → PushOutcome) (today : Date)
      (tasks : List Task) (m : Member) (store : List PushSubscription),
      m.last_daily_push_date = some today →
      morningMemberStep configured deliver today tasks m store = (m, store, [])) := by
  refine ⟨?_, by decide, by decide, ?_⟩
  · intro subjectId kind today lastFired
    simp [shouldFire]
  · intro configured deliver today tasks m store hmark
    simp [morningMemberStep, hmark]

theorem c2_notification_gate_witness :
    morningMemberStep true (fun _ => PushOutcome.ok) ⟨2024, 3, 1⟩ []
        ⟨5, 1, "Mara", some ⟨2024, 3, 1⟩, none⟩ [] =
      (⟨5, 1, "Mara", some ⟨2024, 3, 1⟩, none⟩, [], []) :=
  c2_notification_gate.2.2.2 true (fun _ => PushOutcome.ok) ⟨2024, 3, 1⟩ []
    ⟨5, 1, "Mara", some ⟨2024, 3, 1⟩, none⟩ [] rfl

/-- C5: for each of the six advancing recurrence classes, the rule-less
single-step advance returns a date strictly after the input date, and so
does `nextDueDate` without an `afterDate`. -/
theorem c5_advance_strictly_increases (fromDate : Date) (recurrence timezone : String)
    (hrec : recurrence ∈ ["daily", "weekly", "monthly", "seasonal", "half_year", "yearly"]) :
    dateLt fromDate (advanceSimpleDueDate fromDate recurrence timezone) = true ∧
    dateLt fromDate (nextDueDate fromDate recurrence timezone none) = true := by
  have key : dateLt fromDate (advanceSimpleDueDate fromDate recurrence timezone) = true := by
    simp only [List.mem_cons, List.not_mem_nil, or_false] at hrec
    rcases hrec with h | h | h | h | h | h <;> subst h <;>
      simp only [advanceSimpleDueDate, reduceIte, String.reduceEq]
    · exact addDays_lt 1 (by omega) fromDate
    · exact addDays_lt 7 (by omega) fromDate
    · exact addMonths_lt 1 (by omega) fromDate
    · exact addMonths_lt 3 (by omega) fromDate
    · exact addMonths_lt 6 (by omega) fromDate
    · exact addYears_lt 1 (by omega) fromDate
  exact ⟨key, key⟩

theorem c5_advance_strictly_increases_witness :
    dateLt ⟨2024, 12, 31⟩ (advanceSimpleDueDate ⟨2024, 12, 31⟩ "daily" "Europe/Zurich") = true ∧
    dateLt ⟨2024, 12, 31⟩ (nextDueDate ⟨2024, 12, 31⟩ "daily" "Europe/Zurich" none) = true :=
  c5_advance_strictly_increases ⟨2024, 12, 31⟩ "daily" "Europe/Zurich" (by decide)

/-- C7: a stored rule payload that does not parse to a usable rule is treated
as no rule at all — task completion computes the next due date with the
rule-less `nextDueDate`; the embedded computation is total, so the malformed
payload never aborts the completion. -/
theorem c7_malformed_rule_degrades (dueDate : Date) (recurrence : String)
    (storedRule : StoredRule) (timezone : String) (completedAt : Date)
    (hbad : parseRecurrenceRule storedRule = none) :
    completeTaskNextDue dueDate recurrence storedRule timezone completedAt =
      nextDueDate dueDate recurrence timezone (some completedAt) := by
  unfold completeTaskNextDue
  rw [hbad]

theorem c7_malformed_rule_degrades_witness :
    completeTaskNextDue ⟨2024, 1, 1⟩ "weekly" (StoredRule.raw "not valid json" none)
        "Europe/Zurich" ⟨2024, 1, 2⟩ =
      nextDueDate ⟨2024, 1, 1⟩ "weekly" "Europe/Zurich" (some ⟨2024, 1, 2⟩) :=
  c7_malformed_rule_degrades ⟨2024, 1, 1⟩ "weekly" (StoredRule.raw "not valid json" none)
    "Europe/Zurich" ⟨2024, 1, 2⟩ (by decide)

/-- C9: a recurrence string outside the six advancing classes (such as
`once`) makes the single-step advance return the input date unchanged, so
when `afterDate` is on or after that date the skip-forward loop spins down
its 24-iteration bound and still returns that same date, which is at most
`afterDate`. -/
theorem c9_unknown_recurrence_stalls (fromDate : Date) (recurrence timezone : String)
    (afterDate : Date)
    (hrec : recurrence ∉ ["daily", "weekly", "monthly", "seasonal", "half_year", "yearly"])
    (hle : dateLe fromDate afterDate = true) :
    advanceSimpleDueDate fromDate recurrence timezone = fromDate ∧
    nextDueDate fromDate recurrence timezone (some afterDate) = fromDate ∧
    dateLe (nextDueDate fromDate recurrence timezone (some afterDate)) afterDate = true := by
  simp only [List.mem_cons, List.not_mem_nil, or_false, not_or] at hrec
  obtain ⟨h1, h2, h3, h4, h5, h6⟩ := hrec
  have hadv : advanceSimpleDueDate fromDate recurrence timezone = fromDate := by
    simp [advanceSimpleDueDate, h1, h2, h3, h4, h5, h6]
  have hloop : nextDueDate fromDate recurrence timezone (some afterDate) = fromDate := by
    unfold nextDueDate
    simp only [hadv]
    exact skipForward_fixed _ afterDate fromDate hadv 24
  exact ⟨hadv, hloop, by rw [hloop]; exact hle⟩

theorem c9_unknown_recurrence_stalls_witness :
    advanceSimpleDueDate ⟨2024, 1, 1⟩ "once" "Europe/Zurich" = ⟨2024, 1, 1⟩ ∧
    nextDueDate ⟨2024, 1, 1⟩ "once" "Europe/Zurich" (some ⟨2024, 1, 5⟩) = ⟨2024, 1, 1⟩ ∧
    dateLe (nextDueDate ⟨2024, 1, 1⟩ "once" "Europe/Zurich" (some ⟨2024, 1, 5⟩))
      ⟨2024, 1, 5⟩ = true :=
  c9_unknown_recurrence_stalls ⟨2024, 1, 1⟩ "once" "Europe/Zurich" ⟨2024, 1, 5⟩
    (by decide) (by decide)

/-- C10: a successful push-subscription registration first deletes every
stored subscription row of the member and then inserts the new one, so the
member ends with exactly the fresh subscription, while every other member's
rows are untouched. -/
theorem c10_register_replaces_subscriptions (members : List Member)
    (store newStore : List PushSubscription) (memberId freshId : Nat)
    (subscriptionProvided : Bool)
    (hsucc : registerPushSubscription members store memberId subscriptionProvided freshId =
      some newStore) :
    memberSubscriptions newStore memberId = [⟨freshId, memberId⟩] ∧
    (∀ otherId, otherId ≠ memberId →
      memberSubscriptions newStore otherId = memberSubscriptions store otherId) := by
  unfold registerPushSubscription at hsucc
  by_cases hmem : members.any (fun m => m.id == memberId) = true
  · simp only [hmem, Bool.not_true, Bool.false_eq_true, if_false] at hsucc
    by_cases hsub : subscriptionProvided = true
    · simp only [hsub, Bool.not_true, Bool.false_eq_true, if_false,
        Option.some.injEq] at hsucc
      subst hsucc
      constructor
      · unfold memberSubscriptions
        rw [List.filter_append]
        have hleft : (store.filter (fun s => !(s.member_id == memberId))).filter
            (fun s => s.member_id == memberId) = [] := by
          induction store with
          | nil => rfl
          | cons a l ih =>
            by_cases ha : (a.member_id == memberId) = true
            · simp [List.filter_cons, ha, ih]
            · simp [List.filter_cons, ha, ih]
        rw [hleft]
        simp
      · intro otherId hne
        unfold memberSubscriptions
        rw [List.filter_append]
        have hne' : (memberId == otherId) = false := by
          simp only [beq_eq_false_iff_ne, ne_eq]
          omega
        have hone : List.filter (fun s => s.member_id == otherId)
            [(⟨freshId, memberId⟩ : PushSubscription)] = [] := by
          simp [List.filter_cons, hne']
        rw [hone, List.append_nil]
        induction store with
        | nil => rfl
        | cons a l ih =>
          by_cases ha : (a.member_id == memberId) = true
          · have ha' : (a.member_id == otherId) = false := by
              simp only [beq_iff_eq] at ha
              simp only [beq_eq_false_iff_ne, ne_eq, ha]
              omega
            simp [List.filter_cons, ha, ha', ih]
          · simp [List.filter_cons, ha, ih]
    · simp only [Bool.not_eq_true] at hsub
      simp [hsub] at hsucc
  · simp only [Bool.not_eq_true] at hmem
    simp [hmem] at hsucc

theorem c10_register_replaces_subscriptions_witness :
    memberSubscriptions [⟨3, 9⟩, ⟨4, 7⟩] 7 = [⟨4, 7⟩] ∧
    (∀ otherId, otherId ≠ 7 →
      memberSubscriptions [⟨3, 9⟩, ⟨4, 7⟩] otherId =
        memberSubscriptions [⟨1, 7⟩, ⟨2, 7⟩, ⟨3, 9⟩] otherId) :=
  c10_register_replaces_subscriptions [⟨7, 1, "Jo", none, none⟩]
    [⟨1, 7⟩, ⟨2, 7⟩, ⟨3, 9⟩] [⟨3, 9⟩, ⟨4, 7⟩] 7 4 true (by decide)

/-- Counterexample to C6 as stated: the system stores household timezones
verbatim (a join request may carry America/New_York), yet none of the three
cron triggers is registered in that zone — each carries the fixed option
Europe/Zurich, so the sweep for such a household does not run at the trigger
time of the household's own zone. -/
theorem c6_trigger_zone_counterexample :
    householdTimezone (some "America/New_York") = "America/New_York" ∧
    ∀ j ∈ cronJobs, j.timezone ≠ householdTimezone (some "America/New_York") := by
  decide

/-- C6 (amended): the three sweeps are scheduled at 07:00, 20:00 and 21:00
wall-clock in the single fixed zone Europe/Zurich for every household; the
household's own time zone enters only inside a sweep, where the current date
of each household is taken from that household's resolved zone — the morning
sweep's outcome depends on the now-source only through its values at the
households' own resolved zones. -/
theorem sendDailyReminders_congr_todayOf (configured : Bool) (deliver : Nat → PushOutcome)
    (t1 t2 : String → Date) (households : List Household) (members : List Member)
    (tasks : List Task) :
    ∀ (store : List PushSubscription),
      (∀ h ∈ households, t1 (resolveTimezone h.timezone) = t2 (resolveTimezone h.timezone)) →
      sendDailyReminders configured deliver t1 households members tasks store =
        sendDailyReminders configured deliver t2 households members tasks store := by
  induction households with
  | nil =>
    intro store _
    rfl
  | cons h rest ih =>
    intro store hagree
    have hh : morningHousehold configured deliver t1 members tasks h store =
        morningHousehold configured deliver t2 members tasks h store := by
      unfold morningHousehold
      rw [hagree h (List.mem_cons_self h rest)]
    simp only [sendDailyReminders]
    rw [hh, ih _ (fun g hg => hagree g (List.mem_cons_of_mem h hg))]

theorem c6_trigger_zones_fixed :
    (∀ j ∈ cronJobs, j.timezone = "Europe/Zurich") ∧
    (∀ (configured : Bool) (deliver : Nat → PushOutcome) (t1 t2 : String → Date)
      (households : List Household) (members : List Member) (tasks : List Task)
      (store : List PushSubscription),
      (∀ h ∈ households, t1 (resolveTimezone h.timezone) = t2 (resolveTimezone h.timezone)) →
      sendDailyReminders configured deliver t1 households members tasks store =
        sendDailyReminders configured deliver t2 households members tasks store) := by
  refine ⟨by decide, ?_⟩
  intro configured deliver t1 t2 households members tasks store hagree
  exact sendDailyReminders_congr_todayOf configured deliver t1 t2 households members tasks
    store hagree

theorem c6_trigger_zones_fixed_witness :
    sendDailyReminders true (fun _ => PushOutcome.ok) (fun _ => ⟨2024, 1, 1⟩)
        [⟨1, "UTC"⟩] [] [] [] =
      sendDailyReminders true (fun _ => PushOutcome.ok)
        (fun z => if z = "UTC" then ⟨2024, 1, 1⟩ else ⟨2030, 5, 5⟩) [⟨1, "UTC"⟩] [] [] [] :=
  c6_trigger_zones_fixed.2 true (fun _ => PushOutcome.ok) (fun _ => ⟨2024, 1, 1⟩)
    (fun z => if z = "UTC" then ⟨2024, 1, 1⟩ else ⟨2030, 5, 5⟩) [⟨1, "UTC"⟩] [] [] []
    (by decide)

/-- Success of one delivery outcome. -/
def isOkOutcome : PushOutcome → Bool
  | PushOutcome.ok => true
  | PushOutcome.err _ _ _ => false

/-- A permanent-failure outcome (HTTP 404/410 equivalent). -/
def isPermanentOutcome : PushOutcome → Bool
  | PushOutcome.ok => false
  | PushOutcome.err sc _ _ => isPermanentStatus sc

/-- A transient-failure outcome: rejected, but not with 404/410. -/
def isTransientOutcome : PushOutcome → Bool
  | PushOutcome.ok => false
  | PushOutcome.err sc _ _ => !isPermanentStatus sc

/-- The error detail `{statusCode, message}` recorded for a rejection. -/
def outcomeDetail : PushOutcome → Option Nat × String
  | PushOutcome.ok => (none, "")
  | PushOutcome.err sc body msg => (sc, pushErrorMessage body msg)

theorem processSubscriptions_characterization (deliver : Nat → PushOutcome)
    (subs : List PushSubscription) :
    processSubscriptions deliver subs =
      ⟨subs.countP (fun s => isOkOutcome (deliver s.id)),
        subs.countP (fun s => isTransientOutcome (deliver s.id)),
        (subs.filter (fun s => isTransientOutcome (deliver s.id))).map
          (fun s => outcomeDetail (deliver s.id)),
        (subs.filter (fun s => isPermanentOutcome (deliver s.id))).map
          PushSubscription.id⟩ := by
  induction subs with
  | nil => rfl
  | cons sub rest ih =>
    simp only [processSubscriptions, ih]
    cases hout : deliver sub.id with
    | ok =>
      simp [List.countP_cons, List.filter_cons, hout, isOkOutcome, isTransientOutcome,
        isPermanentOutcome]
    | err sc body msg =>
      by_cases hperm : isPermanentStatus sc = true
      · simp [List.countP_cons, List.filter_cons, hout, isOkOutcome, isTransientOutcome,
          isPermanentOutcome, hperm]
      · simp only [Bool.not_eq_true] at hperm
        simp [List.countP_cons, List.filter_cons, hout, isOkOutcome, isTransientOutcome,
          isPermanentOutcome, outcomeDetail, hperm]

/-- C3: with credentials configured, dispatch to a member attempts every one
of the member's subscriptions independently — `sent` counts exactly the
successes, `failed` counts exactly the non-permanent rejections, the error
details are exactly those of the non-permanent rejections in order, and the
store afterwards is the store minus exactly the member's permanently-failed
subscriptions (subscription ids are unique, as the autoincrement primary key
guarantees).  With two subscriptions of which the first signals 410-gone and
the second succeeds, the result is sent 1, failed 0, configured true, no
errors, and only the failed subscription is removed. -/
theorem c3_push_dispatch_independent (deliver : Nat → PushOutcome)
    (store : List PushSubscription) (memberId : Nat)
    (hnodup : (store.map PushSubscription.id).Nodup) :
    (sendPushToMember true deliver store memberId).1.configured = true ∧
    (sendPushToMember true deliver store memberId).1.sent =
      (memberSubscriptions store memberId).countP (fun s => isOkOutcome (deliver s.id)) ∧
    (sendPushToMember true deliver store memberId).1.failed =
      (memberSubscriptions store memberId).countP
        (fun s => isTransientOutcome (deliver s.id)) ∧
    (sendPushToMember true deliver store memberId).1.errors =
      ((memberSubscriptions store memberId).filter
        (fun s => isTransientOutcome (deliver s.id))).map
          (fun s => outcomeDetail (deliver s.id)) ∧
    (sendPushToMember true deliver store memberId).2 =
      store.filter (fun s =>
        !(s.member_id == memberId && isPermanentOutcome (deliver s.id))) ∧
    sendPushToMember true
        (fun sid => if sid == 1 then PushOutcome.err (some 410) none none else PushOutcome.ok)
        [⟨1, 7⟩, ⟨2, 7⟩] 7 =
      (⟨1, 0, true, []⟩, [⟨2, 7⟩]) := by
  have hchar := processSubscriptions_characterization deliver
    (memberSubscriptions store memberId)
  refine ⟨rfl, ?_, ?_, ?_, ?_, by decide⟩
  · simp only [sendPushToMember, Bool.not_true, Bool.false_eq_true, if_false, hchar]
  · simp only [sendPushToMember, Bool.not_true, Bool.false_eq_true, if_false, hchar]
  · simp only [sendPushToMember, Bool.not_true, Bool.false_eq_true, if_false, hchar]
  · simp only [sendPushToMember, Bool.not_true, Bool.false_eq_true, if_false, hchar]
    apply List.filter_congr
    intro s hs
    have hkey : (((memberSubscriptions store memberId).filter
        (fun t => isPermanentOutcome (deliver t.id))).map PushSubscription.id).contains s.id =
        (s.member_id == memberId && isPermanentOutcome (deliver s.id)) := by
      rw [Bool.eq_iff_iff]
      constructor
      · intro hdel
        simp only [List.contains_eq_any_beq, List.any_eq_true, beq_iff_eq] at hdel
        obtain ⟨tid, htid, hteq⟩ := hdel
        simp only [List.mem_map] at htid
        obtain ⟨t, ht, rfl⟩ := htid
        simp only [List.mem_filter, memberSubscriptions] at ht
        obtain ⟨⟨htstore, htmem⟩, htperm⟩ := ht
        have hts : t = s :=
          List.inj_on_of_nodup_map hnodup htstore hs hteq.symm
        subst hts
        simp [htmem, htperm]
      · intro hright
        simp only [Bool.and_eq_true] at hright
        obtain ⟨hm, hp⟩ := hright
        have hsin : s ∈ (memberSubscriptions store memberId).filter
            (fun t => isPermanentOutcome (deliver t.id)) := by
          simp only [List.mem_filter, memberSubscriptions]
          exact ⟨⟨hs, hm⟩, hp⟩
        simp only [List.contains_eq_any_beq, List.any_eq_true, beq_iff_eq]
        exact ⟨s.id, List.mem_map.mpr ⟨s, hsin, rfl⟩, rfl⟩
    rw [hkey]

theorem c3_push_dispatch_independent_witness :
    (sendPushToMember true
        (fun sid => if sid == 1 then PushOutcome.err (some 410) none none else PushOutcome.ok)
        [⟨1, 7⟩, ⟨2, 7⟩] 7).1.configured = true ∧
    sendPushToMember true
        (fun sid => if sid == 1 then PushOutcome.err (some 410) none none else PushOutcome.ok)
        [⟨1, 7⟩, ⟨2, 7⟩] 7 =
      (⟨1, 0, true, []⟩, [⟨2, 7⟩]) := by
  have h := c3_push_dispatch_independent
    (fun sid => if sid == 1 then PushOutcome.err (some 410) none none else PushOutcome.ok)
    [⟨1, 7⟩, ⟨2, 7⟩] 7 (by decide)
  exact ⟨h.1, h.2.2.2.2.2⟩

theorem weekday_day_formula (y m d : Nat) :
    weekday ⟨y, m, d⟩ =
      (daysBeforeYear y + daysBeforeMonth (isLeap y) m + d + 6) % 7 + 1 := rfl

theorem exists_weekday_forward (c w : Nat) (hw1 : 1 ≤ w) (hw7 : w ≤ 7) :
    ∃ j, j < 7 ∧ (c + (1 + j) + 6) % 7 + 1 = w := by
  have h7 : c % 7 < 7 := Nat.mod_lt _ (by norm_num)
  have hdiv : c = 7 * (c / 7) + c % 7 := (Nat.div_add_mod c 7).symm.trans (by ring)
  refine ⟨(w + 6 - (c + 7) % 7) % 7, ?_, ?_⟩
  · exact Nat.mod_lt _ (by norm_num)
  · omega

theorem exists_weekday_back (c w : Nat) (hc : 7 ≤ c) (hw1 : 1 ≤ w) (hw7 : w ≤ 7) :
    ∃ j, j < 7 ∧ (c - j + 6) % 7 + 1 = w := by
  have h7 : c % 7 < 7 := Nat.mod_lt _ (by norm_num)
  have hdiv : c = 7 * (c / 7) + c % 7 := (Nat.div_add_mod c 7).symm.trans (by ring)
  refine ⟨(c + 7 - w) % 7, ?_, ?_⟩
  · exact Nat.mod_lt _ (by norm_num)
  · omega

theorem scanBackToWeekday_spec (w : Nat) :
    ∀ (fuel y m d : Nat),
      (∃ j, j < fuel ∧ j < d ∧ weekday ⟨y, m, d - j⟩ = w) →
      ∃ j, j < fuel ∧ j < d ∧ weekday ⟨y, m, d - j⟩ = w ∧
        (∀ i, i < j → weekday ⟨y, m, d - i⟩ ≠ w) ∧
        scanBackToWeekday fuel w ⟨y, m, d⟩ = ⟨y, m, d - j⟩ := by
  intro fuel
  induction fuel with
  | zero =>
    intro y m d ⟨j0, hj0, _, _⟩
    omega
  | succ n ih =>
    intro y m d ⟨j0, hj0f, hj0d, hj0w⟩
    by_cases hw : weekday ⟨y, m, d⟩ = w
    · refine ⟨0, by omega, by omega, by simpa using hw, by omega, ?_⟩
      simp only [scanBackToWeekday, beq_iff_eq, hw, if_true]
      simp
    · have hj0pos : 1 ≤ j0 := by
        rcases Nat.eq_zero_or_pos j0 with h0 | h
        · subst h0
          simp only [Nat.sub_zero] at hj0w
          exact absurd hj0w hw
        · exact h
      have hd2 : 2 ≤ d := by omega
      have hprev : prevDay ⟨y, m, d⟩ = ⟨y, m, d - 1⟩ := by
        unfold prevDay
        simp only
        rw [if_pos (by omega : 1 < d)]
      obtain ⟨j, hjn, hjd, hjw, hjmin, hjeq⟩ := ih y m (d - 1)
        ⟨j0 - 1, by omega, by omega, by
          have : d - 1 - (j0 - 1) = d - j0 := by omega
          rw [this]
          exact hj0w⟩
      refine ⟨j + 1, by omega, by omega, ?_, ?_, ?_⟩
      · have : d - (j + 1) = d - 1 - j := by omega
        rw [this]
        exact hjw
      · intro i hi
        match i with
        | 0 => simpa using hw
        | i + 1 =>
          have : d - (i + 1) = d - 1 - i := by omega
          rw [this]
          exact hjmin i (by omega)
      · have hcond : (weekday ⟨y, m, d⟩ == w) = false := by
          simp only [beq_eq_false_iff_ne, ne_eq]
          exact hw
        simp only [scanBackToWeekday, hcond, Bool.false_eq_true, if_false, hprev]
        rw [hjeq]
        have : d - 1 - j = d - (j + 1) := by omega
        rw [this]

theorem scanForwardToWeekday_spec (w : Nat) :
    ∀ (fuel y m d : Nat), 1 ≤ d →
      (∃ j, j < fuel ∧ d + j ≤ daysInMonth y m ∧ weekday ⟨y, m, d + j⟩ = w) →
      ∃ j, j < fuel ∧ d + j ≤ daysInMonth y m ∧ weekday ⟨y, m, d + j⟩ = w ∧
        (∀ i, i < j → weekday ⟨y, m, d + i⟩ ≠ w) ∧
        scanForwardToWeekday fuel w ⟨y, m, d⟩ = ⟨y, m, d + j⟩ := by
  intro fuel
  induction fuel with
  | zero =>
    intro y m d _ ⟨j0, hj0, _, _⟩
    omega
  | succ n ih =>
    intro y m d hd1 ⟨j0, hj0f, hj0dim, hj0w⟩
    by_cases hw : weekday ⟨y, m, d⟩ = w
    · refine ⟨0, by omega, by omega, by simpa using hw, by omega, ?_⟩
      simp only [scanForwardToWeekday, beq_iff_eq, hw, if_true]
      simp
    · have hj0pos : 1 ≤ j0 := by
        rcases Nat.eq_zero_or_pos j0 with h0 | h
        · subst h0
          simp only [Nat.add_zero] at hj0w
          exact absurd hj0w hw
        · exact h
      have hnext : nextDay ⟨y, m, d⟩ = ⟨y, m, d + 1⟩ := by
        unfold nextDay
        simp only
        rw [if_pos (by omega : d < daysInMonth y m)]
      obtain ⟨j, hjn, hjdim, hjw, hjmin, hjeq⟩ := ih y m (d + 1) (by omega)
        ⟨j0 - 1, by omega, by omega, by
          have : d + 1 + (j0 - 1) = d + j0 := by omega
          rw [this]
          exact hj0w⟩
      refine ⟨j + 1, by omega, by omega, ?_, ?_, ?_⟩
      · have : d + (j + 1) = d + 1 + j := by omega
        rw [this]
        exact hjw
      · intro i hi
        match i with
        | 0 => simpa using hw
        | i + 1 =>
          have : d + (i + 1) = d + 1 + i := by omega
          rw [this]
          exact hjmin i (by omega)
      · have hcond : (weekday ⟨y, m, d⟩ == w) = false := by
          simp only [beq_eq_false_iff_ne, ne_eq]
          exact hw
        simp only [scanForwardToWeekday, hcond, Bool.false_eq_true, if_false, hnext]
        rw [hjeq]
        have : d + 1 + j = d + (j + 1) := by omega
        rw [this]

/-- C8: `nthWeekdayOfMonth` returns the nth occurrence of the requested
weekday in the month — the matching days are exactly the arithmetic
progression starting at the first occurrence `f0` with step 7, the forward
scan lands on `f0 + 7(nth-1)`, and an occurrence that would overflow past
month-end is stepped back one week (capping an impossible request to the
previous occurrence); for `nth = -1` the backward scan from month-end
returns the last occurrence — a matching day within the final 7 days of the
month after which no matching day remains; in particular the last Monday of
February 2024 is 2024-02-26. -/
theorem c8_nth_weekday_of_month (y m w : Nat) (nth : Int) (timezone : String)
    (hy : 1 ≤ y) (hm1 : 1 ≤ m) (hm2 : m ≤ 12) (hw1 : 1 ≤ w) (hw7 : w ≤ 7) :
    (nth = -1 →
      (nthWeekdayOfMonth y m w nth timezone).year = y ∧
      (nthWeekdayOfMonth y m w nth timezone).month = m ∧
      weekday (nthWeekdayOfMonth y m w nth timezone) = w ∧
      (nthWeekdayOfMonth y m w nth timezone).day ≤ daysInMonth y m ∧
      daysInMonth y m < (nthWeekdayOfMonth y m w nth timezone).day + 7 ∧
      (∀ e, (nthWeekdayOfMonth y m w nth timezone).day < e → e ≤ daysInMonth y m →
        weekday ⟨y, m, e⟩ ≠ w)) ∧
    (∀ k : Nat, nth = (k : Int) + 1 → k ≤ 4 →
      ∃ f0, 1 ≤ f0 ∧ f0 ≤ 7 ∧ weekday ⟨y, m, f0⟩ = w ∧
        (∀ e, 1 ≤ e → e < f0 → weekday ⟨y, m, e⟩ ≠ w) ∧
        (∀ e, 1 ≤ e → e ≤ daysInMonth y m →
          (weekday ⟨y, m, e⟩ = w ↔ e % 7 = f0 % 7)) ∧
        nthWeekdayOfMonth y m w nth timezone =
          ⟨y, m, if f0 + 7 * k ≤ daysInMonth y m then f0 + 7 * k else f0 + 7 * k - 7⟩ ∧
        weekday (nthWeekdayOfMonth y m w nth timezone) = w ∧
        1 ≤ (nthWeekdayOfMonth y m w nth timezone).day ∧
        (nthWeekdayOfMonth y m w nth timezone).day ≤ daysInMonth y m) ∧
    nthWeekdayOfMonth 2024 2 1 (-1) "Europe/Zurich" = ⟨2024, 2, 26⟩ := by
  have hdim28 : 28 ≤ daysInMonth y m := daysInMonth_ge_28 y m hm1 hm2
  have hdim31 : daysInMonth y m ≤ 31 := daysInMonth_le_31 y m
  refine ⟨?_, ?_, by decide⟩
  · intro hnth
    subst hnth
    have hbranch : nthWeekdayOfMonth y m w (-1) timezone =
        scanBackToWeekday 7 w ⟨y, m, daysInMonth y m⟩ := by
      simp [nthWeekdayOfMonth]
    obtain ⟨j0, hj0, hj0w⟩ := exists_weekday_back
      (daysBeforeYear y + daysBeforeMonth (isLeap y) m + daysInMonth y m) w
      (by omega) hw1 hw7
    have hj0w' : weekday ⟨y, m, daysInMonth y m - j0⟩ = w := by
      rw [weekday_day_formula]
      have : daysBeforeYear y + daysBeforeMonth (isLeap y) m + (daysInMonth y m - j0) =
          daysBeforeYear y + daysBeforeMonth (isLeap y) m + daysInMonth y m - j0 := by
        omega
      rw [this]
      exact hj0w
    obtain ⟨j, hjf, hjd, hjw, hjmin, hjeq⟩ := scanBackToWeekday_spec w 7 y m
      (daysInMonth y m) ⟨j0, hj0, by omega, hj0w'⟩
    rw [hbranch, hjeq]
    dsimp only
    refine ⟨rfl, rfl, hjw, by omega, by omega, ?_⟩
    intro e he1 he2
    have : e = daysInMonth y m - (daysInMonth y m - e) := by omega
    rw [this]
    exact hjmin (daysInMonth y m - e) (by omega)
  · intro k hnth hk
    subst hnth
    have hne : (((k : Int) + 1) == (-1 : Int)) = false := by
      simp only [beq_eq_false_iff_ne, ne_eq]
      omega
    have hsteps : (max ((k : Int) + 1 - 1) 0).toNat = k := by
      have h1 : ((k : Int) + 1 - 1) = (k : Int) := by ring
      rw [h1]
      have h2 : max (k : Int) 0 = (k : Int) := max_eq_left (Int.natCast_nonneg k)
      rw [h2]
      exact Int.toNat_natCast k
    obtain ⟨j0, hj0, hj0w⟩ := exists_weekday_forward
      (daysBeforeYear y + daysBeforeMonth (isLeap y) m) w hw1 hw7
    have hj0w' : weekday ⟨y, m, 1 + j0⟩ = w := hj0w
    obtain ⟨j, hjf, hjdim, hjw, hjmin, hjeq⟩ := scanForwardToWeekday_spec w 7 y m 1
      (by omega) ⟨j0, hj0, by omega, hj0w'⟩
    have hbranch : nthWeekdayOfMonth y m w ((k : Int) + 1) timezone =
        (if (addDays (7 * k) ⟨y, m, 1 + j⟩).month != m then
          subDays 7 (addDays (7 * k) ⟨y, m, 1 + j⟩)
        else addDays (7 * k) ⟨y, m, 1 + j⟩) := by
      simp only [nthWeekdayOfMonth, hne, Bool.false_eq_true, if_false, hsteps, hjeq]
    refine ⟨1 + j, by omega, by omega, hjw, ?_, ?_, ?_⟩
    · intro e he1 he2
      have : e = 1 + (e - 1) := by omega
      rw [this]
      exact hjmin (e - 1) (by omega)
    · intro e he1 he2
      rw [weekday_day_formula] at hjw ⊢
      omega
    · by_cases hfit : 1 + j + 7 * k ≤ daysInMonth y m
      · have hadd : addDays (7 * k) ⟨y, m, 1 + j⟩ = ⟨y, m, 1 + j + 7 * k⟩ :=
          addDays_in_month (7 * k) y m (1 + j) (by omega) (by omega)
        have hguard : ((⟨y, m, 1 + j + 7 * k⟩ : Date).month != m) = false := by
          simp
        rw [hbranch, hadd, hguard]
        simp only [Bool.false_eq_true, if_false]
        rw [if_pos hfit]
        refine ⟨rfl, ?_, by omega, by omega⟩
        rw [weekday_day_formula] at hjw ⊢
        omega
      · have hk1 : 1 ≤ k := by
          rcases Nat.eq_zero_or_pos k with h0 | h
          · subst h0
            omega
          · exact h
        have hadd : addDays (7 * k) ⟨y, m, 1 + j⟩ =
            ⟨(monthSucc y m).1, (monthSucc y m).2, 1 + j + 7 * k - daysInMonth y m⟩ :=
          addDays_overflow (7 * k) y m (1 + j) (by omega) (by omega) hm1 hm2
            (by omega) (by omega)
        have hguard : (((⟨(monthSucc y m).1, (monthSucc y m).2,
            1 + j + 7 * k - daysInMonth y m⟩ : Date)).month != m) = true := by
          simp only [bne_iff_ne, ne_eq]
          unfold monthSucc
          by_cases hc : m < 12
          · rw [if_pos hc]
            simp only
            omega
          · rw [if_neg hc]
            simp only
            omega
        have hsplit : 7 * k = 7 + 7 * (k - 1) := by omega
        have hx1 : addDays (7 * (k - 1)) ⟨y, m, 1 + j⟩ = ⟨y, m, 1 + j + 7 * (k - 1)⟩ :=
          addDays_in_month (7 * (k - 1)) y m (1 + j) (by omega) (by omega)
        have hx1v : (Date.mk y m (1 + j + 7 * (k - 1))).valid = true := by
          simp only [Date.valid, Bool.and_eq_true, decide_eq_true_eq]
          omega
        have hcomp : addDays (7 * k) ⟨y, m, 1 + j⟩ =
            addDays 7 (addDays (7 * (k - 1)) ⟨y, m, 1 + j⟩) := by
          rw [hsplit]
          simp [addDays, Function.iterate_add_apply]
        have hsub : subDays 7 (addDays (7 * k) ⟨y, m, 1 + j⟩) =
            ⟨y, m, 1 + j + 7 * (k - 1)⟩ := by
          rw [hcomp, hx1]
          rw [← hx1]
          rw [subDays_addDays 7 (addDays (7 * (k - 1)) ⟨y, m, 1 + j⟩)
            (by rw [hx1]; exact hx1v)]
        rw [hbranch, hadd, hguard]
        simp only [if_true]
        rw [← hadd, hsub]
        rw [if_neg hfit]
        have hday : 1 + j + 7 * (k - 1) = 1 + j + 7 * k - 7 := by omega
        rw [hday]
        dsimp only
        refine ⟨rfl, ?_, by omega, by omega⟩
        rw [weekday_day_formula] at hjw ⊢
        omega

theorem c8_nth_weekday_of_month_witness :
    (nthWeekdayOfMonth 2024 2 1 (-1) "Europe/Zurich").year = 2024 ∧
    (nthWeekdayOfMonth 2024 2 1 (-1) "Europe/Zurich").month = 2 ∧
    weekday (nthWeekdayOfMonth 2024 2 1 (-1) "Europe/Zurich") = 1 ∧
    nthWeekdayOfMonth 2024 2 1 (-1) "Europe/Zurich" = ⟨2024, 2, 26⟩ := by
  have h := c8_nth_weekday_of_month 2024 2 1 (-1) "Europe/Zurich"
    (by decide) (by decide) (by decide) (by decide) (by decide)
  obtain ⟨hlast, _, hconc⟩ := h
  obtain ⟨h1, h2, h3, _⟩ := hlast rfl
  exact ⟨h1, h2, h3, hconc⟩

theorem nthWeekdayOfMonth_in_month (y m w : Nat) (nth : Int) (timezone : String)
    (hy : 1 ≤ y) (hm1 : 1 ≤ m) (hm2 : m ≤ 12) (hw1 : 1 ≤ w) (hw7 : w ≤ 7)
    (hnth : nth = -1 ∨ (1 ≤ nth ∧ nth ≤ 5)) :
    (nthWeekdayOfMonth y m w nth timezone).year = y ∧
    (nthWeekdayOfMonth y m w nth timezone).month = m ∧
    1 ≤ (nthWeekdayOfMonth y m w nth timezone).day ∧
    (nthWeekdayOfMonth y m w nth timezone).day ≤ daysInMonth y m ∧
    weekday (nthWeekdayOfMonth y m w nth timezone) = w := by
  have hdim28 : 28 ≤ daysInMonth y m := daysInMonth_ge_28 y m hm1 hm2
  have hdim31 : daysInMonth y m ≤ 31 := daysInMonth_le_31 y m
  rcases hnth with hnth | ⟨hn1, hn5⟩
  · subst hnth
    have hbranch : nthWeekdayOfMonth y m w (-1) timezone =
        scanBackToWeekday 7 w ⟨y, m, daysInMonth y m⟩ := by
      simp [nthWeekdayOfMonth]
    obtain ⟨j0, hj0, hj0w⟩ := exists_weekday_back
      (daysBeforeYear y + daysBeforeMonth (isLeap y) m + daysInMonth y m) w
      (by omega) hw1 hw7
    have hj0w' : weekday ⟨y, m, daysInMonth y m - j0⟩ = w := by
      rw [weekday_day_formula]
      have harith : daysBeforeYear y + daysBeforeMonth (isLeap y) m +
          (daysInMonth y m - j0) =
          daysBeforeYear y + daysBeforeMonth (isLeap y) m + daysInMonth y m - j0 := by
        omega
      rw [harith]
      exact hj0w
    obtain ⟨j, hjf, hjd, hjw, hjmin, hjeq⟩ := scanBackToWeekday_spec w 7 y m
      (daysInMonth y m) ⟨j0, hj0, by omega, hj0w'⟩
    rw [hbranch, hjeq]
    dsimp only
    exact ⟨by trivial, by trivial, by omega, by omega, hjw⟩
  · obtain ⟨k, hk, hk4⟩ : ∃ k : Nat, nth = (k : Int) + 1 ∧ k ≤ 4 :=
      ⟨(nth - 1).toNat, by omega, by omega⟩
    subst hk
    have hne : (((k : Int) + 1) == (-1 : Int)) = false := by
      simp only [beq_eq_false_iff_ne, ne_eq]
      omega
    have hsteps : (max ((k : Int) + 1 - 1) 0).toNat = k := by
      have ha : ((k : Int) + 1 - 1) = (k : Int) := by ring
      rw [ha]
      have hb : max (k : Int) 0 = (k : Int) := max_eq_left (Int.natCast_nonneg k)
      rw [hb]
      exact Int.toNat_natCast k
    obtain ⟨j0, hj0, hj0w⟩ := exists_weekday_forward
      (daysBeforeYear y + daysBeforeMonth (isLeap y) m) w hw1 hw7
    have hj0w' : weekday ⟨y, m, 1 + j0⟩ = w := hj0w
    obtain ⟨j, hjf, hjdim, hjw, hjmin, hjeq⟩ := scanForwardToWeekday_spec w 7 y m 1
      (by omega) ⟨j0, hj0, by omega, hj0w'⟩
    have hbranch : nthWeekdayOfMonth y m w ((k : Int) + 1) timezone =
        (if (addDays (7 * k) ⟨y, m, 1 + j⟩).month != m then
          subDays 7 (addDays (7 * k) ⟨y, m, 1 + j⟩)
        else addDays (7 * k) ⟨y, m, 1 + j⟩) := by
      simp only [nthWeekdayOfMonth, hne, Bool.false_eq_true, if_false, hsteps, hjeq]
    by_cases hfit : 1 + j + 7 * k ≤ daysInMonth y m
    · have hadd : addDays (7 * k) ⟨y, m, 1 + j⟩ = ⟨y, m, 1 + j + 7 * k⟩ :=
        addDays_in_month (7 * k) y m (1 + j) (by omega) (by omega)
      have hguard : ((⟨y, m, 1 + j + 7 * k⟩ : Date).month != m) = false := by
        simp
      rw [hbranch, hadd, hguard]
      simp only [Bool.false_eq_true, if_false]
      refine ⟨by trivial, by trivial, by omega, by omega, ?_⟩
      rw [weekday_day_formula] at hjw ⊢
      omega
    · have hk1 : 1 ≤ k := by
        rcases Nat.eq_zero_or_pos k with h0 | hpos
        · subst h0
          omega
        · exact hpos
      have hadd : addDays (7 * k) ⟨y, m, 1 + j⟩ =
          ⟨(monthSucc y m).1, (monthSucc y m).2, 1 + j + 7 * k - daysInMonth y m⟩ :=
        addDays_overflow (7 * k) y m (1 + j) (by omega) (by omega) hm1 hm2
          (by omega) (by omega)
      have hguard : (((⟨(monthSucc y m).1, (monthSucc y m).2,
          1 + j + 7 * k - daysInMonth y m⟩ : Date)).month != m) = true := by
        simp only [bne_iff_ne, ne_eq]
        unfold monthSucc
        by_cases hc : m < 12
        · rw [if_pos hc]
          simp only
          omega
        · rw [if_neg hc]
          simp only
          omega
      have hsplit : 7 * k = 7 + 7 * (k - 1) := by omega
      have hx1 : addDays (7 * (k - 1)) ⟨y, m, 1 + j⟩ = ⟨y, m, 1 + j + 7 * (k - 1)⟩ :=
        addDays_in_month (7 * (k - 1)) y m (1 + j) (by omega) (by omega)
      have hx1v : (Date.mk y m (1 + j + 7 * (k - 1))).valid = true := by
        simp only [Date.valid, Bool.and_eq_true, decide_eq_true_eq]
        omega
      have hcomp : addDays (7 * k) ⟨y, m, 1 + j⟩ =
          addDays 7 (addDays (7 * (k - 1)) ⟨y, m, 1 + j⟩) := by
        rw [hsplit]
        simp [addDays, Function.iterate_add_apply]
      have hsub : subDays 7 (addDays (7 * k) ⟨y, m, 1 + j⟩) =
          ⟨y, m, 1 + j + 7 * (k - 1)⟩ := by
        rw [hcomp, hx1]
        rw [← hx1]
        rw [subDays_addDays 7 (addDays (7 * (k - 1)) ⟨y, m, 1 + j⟩)
          (by rw [hx1]; exact hx1v)]
      rw [hbranch, hadd, hguard]
      simp only [if_true]
      rw [← hadd, hsub]
      dsimp only
      refine ⟨by trivial, by trivial, by omega, by omega, ?_⟩
      rw [weekday_day_formula] at hjw ⊢
      omega

/-- C4: for a yearly task whose rule carries an anchor month, the rule-aware
advance overrides the target month with the anchor and sets the year to the
from-date's year plus one, on both resolution paths — the day-of-month path
resolved via clampDay, and the by_weekday path resolved via
nthWeekdayOfMonth (for the spec's declared field ranges: weekday 1..7,
weekOfMonth one of 1..4 or -1, the code also capping an impossible 5); the
spec's end-to-end case — due 2024-06-10, yearly, rule month 6, completed
2024-06-15 in Europe/Zurich — advances to 2025-06-10. -/
theorem c4_yearly_month_anchor (fromDate : Date) (rule : RecurrenceRule)
    (timezone : String) (mo : Int) (hmo : rule.month = some mo)
    (h1 : 1 ≤ mo) (h2 : mo ≤ 12)
    (hranges : (rule.mode == some "by_weekday" && jsTruthyInt rule.weekday
        && jsTruthyInt rule.weekOfMonth) = true →
      1 ≤ (rule.weekday.getD 0).toNat ∧ (rule.weekday.getD 0).toNat ≤ 7 ∧
      (rule.weekOfMonth.getD 0 = -1 ∨
        (1 ≤ rule.weekOfMonth.getD 0 ∧ rule.weekOfMonth.getD 0 ≤ 5))) :
    (advanceRuleDueDate fromDate "yearly" (some rule) timezone).year = fromDate.year + 1 ∧
    (advanceRuleDueDate fromDate "yearly" (some rule) timezone).month = mo.toNat ∧
    nextDueDateWithRule ⟨2024, 6, 10⟩ "yearly" (some ⟨none, none, none, none, some 6⟩)
      "Europe/Zurich" (some ⟨2024, 6, 15⟩) = ⟨2025, 6, 10⟩ := by
  have htruthy : jsTruthyInt (some mo) = true := by
    simp only [jsTruthyInt, bne_iff_ne, ne_eq, decide_eq_true_eq]
    omega
  by_cases hguard : (rule.mode == some "by_weekday" && jsTruthyInt rule.weekday
      && jsTruthyInt rule.weekOfMonth) = true
  · have hrule : advanceRuleDueDate fromDate "yearly" (some rule) timezone =
        nthWeekdayOfMonth (fromDate.year + 1) mo.toNat (rule.weekday.getD 0).toNat
          (rule.weekOfMonth.getD 0) timezone := by
      unfold advanceRuleDueDate
      simp only [String.reduceEq, reduceIte, Option.some_bind, hmo, htruthy,
        OfNat.ofNat_ne_zero, beq_self_eq_true, Bool.and_self, Bool.true_and, hguard,
        if_true, Option.getD_some, addYears]
    obtain ⟨hw1, hw7, hnth⟩ := hranges hguard
    obtain ⟨hY, hM, _, _, _⟩ := nthWeekdayOfMonth_in_month (fromDate.year + 1) mo.toNat
      (rule.weekday.getD 0).toNat (rule.weekOfMonth.getD 0) timezone
      (by omega) (by omega) (by omega) hw1 hw7 hnth
    rw [hrule]
    exact ⟨hY, hM, by decide⟩
  · simp only [Bool.not_eq_true] at hguard
    have hrule : advanceRuleDueDate fromDate "yearly" (some rule) timezone =
        clampDay (fromDate.year + 1) mo.toNat (jsNumberOr rule.day fromDate.day)
          timezone := by
      unfold advanceRuleDueDate
      simp only [String.reduceEq, reduceIte, Option.some_bind, hmo, htruthy,
        OfNat.ofNat_ne_zero, beq_self_eq_true, Bool.and_self, Bool.true_and, hguard,
        Bool.false_eq_true, if_false, Option.getD_some, addYears]
    refine ⟨?_, ?_, by decide⟩
    · rw [hrule]
      rfl
    · rw [hrule]
      rfl

theorem c4_yearly_month_anchor_witness :
    (advanceRuleDueDate ⟨2024, 6, 10⟩ "yearly"
      (some ⟨some "by_weekday", some 1, some (-1), none, some 6⟩) "Europe/Zurich").year =
      2024 + 1 ∧
    (advanceRuleDueDate ⟨2024, 6, 10⟩ "yearly"
      (some ⟨some "by_weekday", some 1, some (-1), none, some 6⟩) "Europe/Zurich").month =
      (6 : Int).toNat ∧
    nextDueDateWithRule ⟨2024, 6, 10⟩ "yearly" (some ⟨none, none, none, none, some 6⟩)
      "Europe/Zurich" (some ⟨2024, 6, 15⟩) = ⟨2025, 6, 10⟩ :=
  c4_yearly_month_anchor ⟨2024, 6, 10⟩ ⟨some "by_weekday", some 1, some (-1), none, some 6⟩
    "Europe/Zurich" 6 rfl (by decide) (by decide) (by decide)

end HomeSystem
